import Mathlib

/-!
Verification of the range-specification language and batch-selection filter
implemented in `scripts/mad3d/convert_mesh_to_usd_occ.py` and in
`source/isaaclab/isaaclab/utils/io/range.py`.

Modelling conventions (shallow embedding):
* Python strings are modelled as `List Char`.
* Python integers are modelled as `Int`; the value captured by the regex
  group `(\d+)` is a digit string, so the parsed value is `Int.ofNat` of the
  numeral denoted by those digits.
* `raise ValueError(...)` is modelled with `Except RangeError`; the four
  distinct error messages of `expand_range` become the four constructors of
  `RangeError` (the prefix-mismatch message interpolates both prefixes, so
  that constructor carries them).
* Python's `re.search(r'(\d+)$', s)`: the anchor `$` matches at the end of
  the string and also just before a newline at the very end of the string,
  so the search inspects `s` with a single final `'\n'` (if any) removed;
  the digit class is modelled as the ASCII digits `'0'..'9'`.
* `range(n1, n2)` is `pyRange`, `str.zfill` is `zfill` (including the
  leading-sign rule of Python's `zfill`), `str.strip()` is `pyStrip` over
  ASCII whitespace.
-/

namespace NBV

/-- Decimal digit character for a value below ten, as produced by `str`. -/
def digitChar (n : Nat) : Char := Char.ofNat (48 + n)

/-- Fuel-driven core of the decimal rendering of a natural number. -/
def natToDecimalCore : Nat → Nat → List Char → List Char
  | 0, _, acc => acc
  | fuel + 1, n, acc =>
    if n < 10 then digitChar n :: acc
    else natToDecimalCore fuel (n / 10) (digitChar (n % 10) :: acc)

/-- Decimal rendering of a natural number (`str(n)` for `n >= 0`). -/
def natToDecimal (n : Nat) : List Char := natToDecimalCore (n + 1) n []

/-- Decimal rendering of a Python integer (`str(i)`). -/
def intToDecimal (i : Int) : List Char :=
  if i < 0 then '-' :: natToDecimal (- i).toNat else natToDecimal i.toNat

/-- Value of a digit string, as computed by Python's `int` on a `\d+` match. -/
def natOfDigits (ds : List Char) : Nat :=
  ds.foldl (fun a c => 10 * a + (c.toNat - 48)) 0

/-- Remove a single final newline, reflecting that the regex anchor `$`
matches just before a newline at the end of the searched string. -/
def stripFinalNewline (s : List Char) : List Char :=
  match s.getLast? with
  | some c => if c = '\n' then s.dropLast else s
  | none => s

/-- The maximal trailing run of ASCII digits of a string. -/
def trailingDigits (s : List Char) : List Char :=
  (s.reverse.takeWhile Char.isDigit).reverse

/-- The string with its maximal trailing run of ASCII digits removed. -/
def dropTrailingDigits (s : List Char) : List Char :=
  (s.reverse.dropWhile Char.isDigit).reverse

/-- Model of `split_prefix_num(s)`: search for `(\d+)$`; on failure return
`(s, None, 0)`, on success return the part of the searched string before the
match, the integer value of the match and the match's length. -/
def split_prefix_num (s : List Char) : List Char × Option Int × Nat :=
  let body := stripFinalNewline s
  let ds := trailingDigits body
  if ds = [] then (s, none, 0)
  else (dropTrailingDigits body, some (Int.ofNat (natOfDigits ds)), ds.length)

/-- Model of `spec.split('..', 1)` fused with the `'..' in spec` test:
`none` when the separator is absent, otherwise the pieces before and after
the first occurrence of `".."`. -/
def splitFirstDotDot : List Char → Option (List Char × List Char)
  | [] => none
  | [_] => none
  | c1 :: c2 :: rest =>
    if c1 = '.' ∧ c2 = '.' then some ([], rest)
    else
      match splitFirstDotDot (c2 :: rest) with
      | none => none
      | some (l, r) => some (c1 :: l, r)

/-- The four `ValueError`s raised by `expand_range`, one per violated
invariant; the mismatch error carries the two offending non-numeric parts
exactly as the interpolated message does. -/
inductive RangeError where
  | missingSep : RangeError
  | missingNumber : RangeError
  | prefixMismatch : List Char → List Char → RangeError
  | startGreater : RangeError
deriving DecidableEq

/-- View of an `Except` value as a sum, used to decide equality. -/
def exceptToSum {ε α : Type} : Except ε α → Sum ε α
  | Except.error e => Sum.inl e
  | Except.ok a => Sum.inr a

instance {ε α : Type} [DecidableEq ε] [DecidableEq α] : DecidableEq (Except ε α) :=
  fun x y =>
    decidable_of_iff (exceptToSum x = exceptToSum y)
      (by cases x <;> cases y <;> simp [exceptToSum])

/-- Model of Python's `range(a, b)` as a list. -/
def pyRange (a b : Int) : List Int :=
  (List.range (b - a).toNat).map fun k => a + Int.ofNat k

/-- Model of Python's `str.zfill(w)`: left-pad with `'0'` to length `w`,
inserting the padding after a leading sign if one is present. -/
def zfill (w : Nat) (s : List Char) : List Char :=
  match s with
  | [] => List.replicate w '0'
  | c :: rest =>
    if c = '-' ∨ c = '+' then c :: (List.replicate (w - (rest.length + 1)) '0' ++ rest)
    else List.replicate (w - (rest.length + 1)) '0' ++ (c :: rest)

/-- Model of `expand_range(spec)` from `range.py` and
`convert_mesh_to_usd_occ.py` (the two copies are identical). -/
def expand_range (spec : List Char) : Except RangeError (List (List Char)) :=
  match splitFirstDotDot spec with
  | none => Except.error RangeError.missingSep
  | some (left, right) =>
    let t1 := split_prefix_num left
    let t2 := split_prefix_num right
    match t1.2.1, t2.2.1 with
    | none, _ => Except.error RangeError.missingNumber
    | _, none => Except.error RangeError.missingNumber
    | some n1, some n2 =>
      if t1.1 ≠ t2.1 then Except.error (RangeError.prefixMismatch t1.1 t2.1)
      else if n1 > n2 then Except.error RangeError.startGreater
      else Except.ok ((pyRange n1 n2).map fun i => t1.1 ++ zfill (max t1.2.2 t2.2.2) (intToDecimal i))

/-- Path separator used when a relative path is split into segments. -/
def sepChar : Char := '/'

/-- Model of `rel.split(os.sep)[0]`: the characters before the first
separator, or the whole string when no separator occurs — so a file lying
directly in the input root has its own filename as its top segment. -/
def topOf (rel : List Char) : List Char := rel.takeWhile (fun c => c ≠ sepChar)

/-- Model of the filtering loop of `main`: keep, in discovery order, exactly
the relative paths whose top segment is a member of the allowed names. -/
def filterAllowed (allowed : List (List Char)) (rels : List (List Char)) :
    List (List Char) :=
  rels.filter (fun r => decide (topOf r ∈ allowed))

/-- ASCII whitespace recognised by `str.strip()`. -/
def pySpace (c : Char) : Bool :=
  c == ' ' || c == '\t' || c == '\n' || c == '\r' || c == '\x0b' || c == '\x0c'

/-- Model of `str.strip()` over ASCII whitespace. -/
def pyStrip (s : List Char) : List Char :=
  ((s.dropWhile pySpace).reverse.dropWhile pySpace).reverse

/-- Model of the `--subdirs` handling in `main`: an absent or empty argument
skips filtering (`if args_cli.subdirs:`); otherwise the stripped spec is
expanded (an expansion error propagates to the caller), and the filter runs
only when the resulting allowed set is non-empty (`if allowed:`) — an empty
expansion leaves the discovered list untouched. -/
def selectJobs (subdirs : Option (List Char)) (rels : List (List Char)) :
    Except RangeError (List (List Char)) :=
  match subdirs with
  | none => Except.ok rels
  | some s =>
    if s = [] then Except.ok rels
    else
      match expand_range (pyStrip s) with
      | Except.error e => Except.error e
      | Except.ok allowed =>
        if allowed = [] then Except.ok rels
        else Except.ok (filterAllowed allowed rels)

/-- The process-wide output primitive (`builtins.print`), the only shared
mutable state touched by the batch runner. -/
structure PrintState (P : Type) where
  current : P

/-- Observable events of the batch loop: the single total-count report and
one event per item handed to the conversion function. -/
inductive RunEvent (J : Type) where
  | reportTotal : Nat → RunEvent J
  | item : J → RunEvent J
deriving DecidableEq

/-- The slice lower bound `start = 0` used by `main`'s loop. -/
def batchStart : Nat := 0

/-- Sequential processing of the job list: each item is handed to `per_item`
once, in order; the first failure stops the loop and is returned. -/
def processItems {J E : Type} (perItem : J → Except E Unit) :
    List J → List J × Except E Unit
  | [] => ([], Except.ok ())
  | j :: rest =>
    match perItem j with
    | Except.ok _ =>
      let pr := processItems perItem rest
      (j :: pr.1, pr.2)
    | Except.error e => ([j], Except.error e)

/-- Model of the progress-guarded loop of `main`: save `builtins.print`,
install `tqdm.write`, report the total job count, run the per-item loop over
`meshes_path[start:]`, and restore the saved primitive in the `finally`
block before the outcome (normal or error) leaves the function. -/
def runBatch {P J E : Type} (tqdmWrite : P) (perItem : J → Except E Unit)
    (jobs : List J) (st : PrintState P) :
    PrintState P × List (RunEvent J) × Except E Unit :=
  let originalPrint := st.current
  let stLoop : PrintState P := { st with current := tqdmWrite }
  let pr := processItems perItem (jobs.drop batchStart)
  let stDone : PrintState P := { stLoop with current := originalPrint }
  (stDone, RunEvent.reportTotal jobs.length :: pr.1.map RunEvent.item, pr.2)

/-! Helper lemmas about the `".."` separator search. -/

theorem splitFirstDotDot_cons_cons (c1 c2 : Char) (rest : List Char) :
    splitFirstDotDot (c1 :: c2 :: rest) =
      if c1 = '.' ∧ c2 = '.' then some ([], rest)
      else
        match splitFirstDotDot (c2 :: rest) with
        | none => none
        | some (l, r) => some (c1 :: l, r) := rfl

theorem splitFirstDotDot_sound :
    ∀ (s l r : List Char), splitFirstDotDot s = some (l, r) →
      s = l ++ '.' :: '.' :: r ∧ splitFirstDotDot (l ++ ['.']) = none := by
  intro s
  induction s with
  | nil => intro l r h; simp [splitFirstDotDot] at h
  | cons c1 rest ih =>
    intro l r h
    match rest with
    | [] => simp [splitFirstDotDot] at h
    | c2 :: rest2 =>
      rw [splitFirstDotDot_cons_cons] at h
      by_cases hd : c1 = '.' ∧ c2 = '.'
      · rw [if_pos hd] at h
        simp only [Option.some.injEq, Prod.mk.injEq] at h
        obtain ⟨h1, h2⟩ := h
        subst h1; subst h2
        refine ⟨by simp [hd.1, hd.2], rfl⟩
      · rw [if_neg hd] at h
        cases hrec : splitFirstDotDot (c2 :: rest2) with
        | none => rw [hrec] at h; simp at h
        | some p =>
          obtain ⟨l2, r2⟩ := p
          rw [hrec] at h
          simp only [Option.some.injEq, Prod.mk.injEq] at h
          obtain ⟨h1, h2⟩ := h
          subst h1; subst h2
          obtain ⟨ihEq, ihNone⟩ := ih l2 r2 hrec
          refine ⟨by rw [ihEq]; rfl, ?_⟩
          show splitFirstDotDot (c1 :: (l2 ++ ['.'])) = none
          cases l2 with
          | nil =>
            have hc2 : c2 = '.' := by
              simpa using congrArg List.head? ihEq
            have hc1 : ¬ c1 = '.' := fun hh => hd ⟨hh, hc2⟩
            rw [show ([] : List Char) ++ ['.'] = ['.'] from rfl]
            rw [splitFirstDotDot_cons_cons, if_neg (fun hh => hc1 hh.1)]
            rfl
          | cons x l3 =>
            have hc2 : c2 = x := by
              simpa using congrArg List.head? ihEq
            subst hc2
            rw [show c1 :: (c2 :: l3 ++ ['.']) = c1 :: c2 :: (l3 ++ ['.']) from rfl]
            rw [splitFirstDotDot_cons_cons, if_neg hd]
            rw [show c2 :: (l3 ++ ['.']) = (c2 :: l3) ++ ['.'] from rfl, ihNone]

theorem splitFirstDotDot_isSome_cons (c1 c2 : Char) (rest : List Char)
    (h : (splitFirstDotDot (c2 :: rest)).isSome = true) :
    (splitFirstDotDot (c1 :: c2 :: rest)).isSome = true := by
  rw [splitFirstDotDot_cons_cons]
  by_cases hd : c1 = '.' ∧ c2 = '.'
  · rw [if_pos hd]; rfl
  · rw [if_neg hd]
    cases hs : splitFirstDotDot (c2 :: rest) with
    | none => rw [hs] at h; simp at h
    | some p => obtain ⟨l, r⟩ := p; rfl

theorem splitFirstDotDot_isSome_of_infix :
    ∀ (u v : List Char), (splitFirstDotDot (u ++ '.' :: '.' :: v)).isSome = true := by
  intro u v
  induction u with
  | nil => rw [List.nil_append, splitFirstDotDot_cons_cons, if_pos ⟨rfl, rfl⟩]; rfl
  | cons c u' ih =>
    cases u' with
    | nil => exact splitFirstDotDot_isSome_cons c '.' ('.' :: v) ih
    | cons x u'' => exact splitFirstDotDot_isSome_cons c x (u'' ++ '.' :: '.' :: v) ih

theorem splitFirstDotDot_none_iff (s : List Char) :
    splitFirstDotDot s = none ↔ ¬ List.IsInfix ['.', '.'] s := by
  constructor
  · intro h hinf
    obtain ⟨u, v, huv⟩ := hinf
    have h2 : (splitFirstDotDot s).isSome = true := by
      rw [← huv, List.append_assoc]
      exact splitFirstDotDot_isSome_of_infix u v
    rw [h] at h2
    simp at h2
  · intro h
    cases hs : splitFirstDotDot s with
    | none => rfl
    | some p =>
      obtain ⟨l, r⟩ := p
      obtain ⟨hEq, _⟩ := splitFirstDotDot_sound s l r hs
      exact absurd ⟨l, r, by rw [hEq]; simp⟩ h

/-! Helper lemmas giving `expand_range` on each branch of its control flow. -/

theorem expand_range_missingSep {spec : List Char} (h : splitFirstDotDot spec = none) :
    expand_range spec = Except.error RangeError.missingSep := by
  simp [expand_range, h]

theorem expand_range_missingNumber_left {spec l r : List Char}
    (hs : splitFirstDotDot spec = some (l, r)) (h1 : (split_prefix_num l).2.1 = none) :
    expand_range spec = Except.error RangeError.missingNumber := by
  simp [expand_range, hs, h1]

theorem expand_range_missingNumber_right {spec l r : List Char}
    (hs : splitFirstDotDot spec = some (l, r)) (h2 : (split_prefix_num r).2.1 = none) :
    expand_range spec = Except.error RangeError.missingNumber := by
  cases h1 : (split_prefix_num l).2.1 with
  | none => simp [expand_range, hs, h1]
  | some n1 => simp [expand_range, hs, h1, h2]

theorem expand_range_mismatch {spec l r : List Char} {n1 n2 : Int}
    (hs : splitFirstDotDot spec = some (l, r))
    (h1 : (split_prefix_num l).2.1 = some n1) (h2 : (split_prefix_num r).2.1 = some n2)
    (hp : (split_prefix_num l).1 ≠ (split_prefix_num r).1) :
    expand_range spec =
      Except.error (RangeError.prefixMismatch (split_prefix_num l).1 (split_prefix_num r).1) := by
  simp [expand_range, hs, h1, h2, hp]

theorem expand_range_startGreater {spec l r : List Char} {n1 n2 : Int}
    (hs : splitFirstDotDot spec = some (l, r))
    (h1 : (split_prefix_num l).2.1 = some n1) (h2 : (split_prefix_num r).2.1 = some n2)
    (hp : (split_prefix_num l).1 = (split_prefix_num r).1) (hgt : n2 < n1) :
    expand_range spec = Except.error RangeError.startGreater := by
  simp [expand_range, hs, h1, h2, hp, hgt]

theorem expand_range_ok {spec l r : List Char} {n1 n2 : Int}
    (hs : splitFirstDotDot spec = some (l, r))
    (h1 : (split_prefix_num l).2.1 = some n1) (h2 : (split_prefix_num r).2.1 = some n2)
    (hp : (split_prefix_num l).1 = (split_prefix_num r).1) (hle : n1 ≤ n2) :
    expand_range spec = Except.ok ((pyRange n1 n2).map fun i =>
      (split_prefix_num l).1 ++
        zfill (max (split_prefix_num l).2.2 (split_prefix_num r).2.2) (intToDecimal i)) := by
  have hnot : ¬ n1 > n2 := by omega
  simp [expand_range, hs, h1, h2, hp, hnot]

theorem expand_range_ne_missingSep {spec l r : List Char}
    (hs : splitFirstDotDot spec = some (l, r)) :
    expand_range spec ≠ Except.error RangeError.missingSep := by
  cases h1 : (split_prefix_num l).2.1 with
  | none => rw [expand_range_missingNumber_left hs h1]; simp
  | some n1 =>
    cases h2 : (split_prefix_num r).2.1 with
    | none => rw [expand_range_missingNumber_right hs h2]; simp
    | some n2 =>
      by_cases hp : (split_prefix_num l).1 = (split_prefix_num r).1
      · by_cases hle : n1 ≤ n2
        · rw [expand_range_ok hs h1 h2 hp hle]; simp
        · rw [expand_range_startGreater hs h1 h2 hp (by omega)]; simp
      · rw [expand_range_mismatch hs h1 h2 hp]; simp

theorem expand_range_eq_of_valid {spec l r p : List Char} {n1 n2 : Int} {w1 w2 : Nat}
    (hs : splitFirstDotDot spec = some (l, r))
    (h1 : split_prefix_num l = (p, some n1, w1))
    (h2 : split_prefix_num r = (p, some n2, w2))
    (hle : n1 ≤ n2) :
    expand_range spec =
      Except.ok ((pyRange n1 n2).map fun i => p ++ zfill (max w1 w2) (intToDecimal i)) := by
  have := expand_range_ok hs (by rw [h1]) (by rw [h2]) (by rw [h1, h2]) hle
  rw [this, h1, h2]

theorem mem_pyRange {a b i : Int} : i ∈ pyRange a b ↔ a ≤ i ∧ i < b := by
  simp only [pyRange, List.mem_map, List.mem_range, Int.ofNat_eq_coe]
  constructor
  · rintro ⟨k, hk, rfl⟩
    omega
  · rintro ⟨ha, hb⟩
    exact ⟨(i - a).toNat, by omega, by omega⟩

theorem zfill_length (w : Nat) (s : List Char) : (zfill w s).length = max w s.length := by
  match s with
  | [] => simp [zfill]
  | c :: rest =>
    by_cases hc : c = '-' ∨ c = '+'
    · simp [zfill, hc]
      omega
    · simp [zfill, hc]
      omega

theorem zfill_of_le {w : Nat} {s : List Char} (h : w ≤ s.length) : zfill w s = s := by
  match s with
  | [] =>
    have : w = 0 := by simpa using h
    simp [zfill, this]
  | c :: rest =>
    have hz : w - (rest.length + 1) = 0 := by
      simp only [List.length_cons] at h
      omega
    by_cases hc : c = '-' ∨ c = '+' <;> simp [zfill, hc, hz]

/-- C1 counterexample: `expand_range("a..a")` does not yield the empty
sequence.  The side `"a"` has no trailing digits, so the call raises the
"Both endpoints must end with a number" error instead of returning. -/
theorem expand_range_a_dotdot_a :
    expand_range ("a..a".toList) = Except.error RangeError.missingNumber ∧
      expand_range ("a..a".toList) ≠ Except.ok [] := by decide

/-- C1 (amended): for every spec whose two sides parse to the same non-digit
part with numbers `n1 ≤ n2`, `expand_range` returns exactly the ordered
sequence of the shared part followed by the zero-padded rendering of `i`,
for `i` in the half-open interval from `n1` up to but excluding `n2` (the
membership characterisation of `pyRange` makes the excluded right endpoint
explicit); `expand_range("000-000..000-010")` is the 10-element list
`["000-000", ..., "000-009"]`, and equal endpoints yield the empty sequence
provided the endpoints end in digits, as in `"000-003..000-003"` — the
spec's example `"a..a"` instead raises a missing-number error. -/
theorem expand_range_half_open :
    (∀ (spec l r p : List Char) (n1 n2 : Int) (w1 w2 : Nat),
      splitFirstDotDot spec = some (l, r) →
      split_prefix_num l = (p, some n1, w1) →
      split_prefix_num r = (p, some n2, w2) →
      n1 ≤ n2 →
      expand_range spec =
        Except.ok ((pyRange n1 n2).map fun i => p ++ zfill (max w1 w2) (intToDecimal i))) ∧
    (∀ (a b i : Int), i ∈ pyRange a b ↔ a ≤ i ∧ i < b) ∧
    expand_range ("000-000..000-010".toList) =
      Except.ok (["000-000", "000-001", "000-002", "000-003", "000-004",
                  "000-005", "000-006", "000-007", "000-008", "000-009"].map String.toList) ∧
    expand_range ("000-003..000-003".toList) = Except.ok [] := by
  refine ⟨fun spec l r p n1 n2 w1 w2 hs h1 h2 hle => expand_range_eq_of_valid hs h1 h2 hle,
    fun a b i => mem_pyRange, by decide, by decide⟩

/-- C1 witness: the general statement of `expand_range_half_open` applied at
the concrete spec `"b2..b5"`. -/
theorem expand_range_half_open_wit :
    expand_range ("b2..b5".toList) =
      Except.ok ((pyRange 2 5).map fun i => ("b".toList) ++ zfill (max 1 1) (intToDecimal i)) :=
  expand_range_half_open.1 ("b2..b5".toList) ("b2".toList) ("b5".toList) ("b".toList) 2 5 1 1
    (by decide) (by decide) (by decide) (by decide)

/-- C3: `expand_range` fails exactly on the four structural violations, each
with its own error: it reports the missing-separator error precisely when
`".."` is not a substring of the spec; once the spec splits, a missing
trailing number on either side gives the missing-number error; distinct
non-numeric parts give the mismatch error carrying both of them; a left
number greater than the right gives the start-greater error; and in every
remaining case `expand_range` returns normally with some output list. -/
theorem expand_range_error_cases (spec : List Char) :
    (expand_range spec = Except.error RangeError.missingSep ↔
      ¬ List.IsInfix ['.', '.'] spec) ∧
    (∀ l r, splitFirstDotDot spec = some (l, r) →
      (((split_prefix_num l).2.1 = none ∨ (split_prefix_num r).2.1 = none) →
        expand_range spec = Except.error RangeError.missingNumber) ∧
      (∀ (n1 n2 : Int), (split_prefix_num l).2.1 = some n1 →
        (split_prefix_num r).2.1 = some n2 →
        ((split_prefix_num l).1 ≠ (split_prefix_num r).1 →
          expand_range spec =
            Except.error (RangeError.prefixMismatch (split_prefix_num l).1
              (split_prefix_num r).1)) ∧
        ((split_prefix_num l).1 = (split_prefix_num r).1 → n2 < n1 →
          expand_range spec = Except.error RangeError.startGreater) ∧
        ((split_prefix_num l).1 = (split_prefix_num r).1 → n1 ≤ n2 →
          ∃ outs, expand_range spec = Except.ok outs))) := by
  constructor
  · constructor
    · intro h
      cases hs : splitFirstDotDot spec with
      | none => exact (splitFirstDotDot_none_iff spec).mp hs
      | some p => obtain ⟨l, r⟩ := p; exact absurd h (expand_range_ne_missingSep hs)
    · intro h
      exact expand_range_missingSep ((splitFirstDotDot_none_iff spec).mpr h)
  · intro l r hs
    refine ⟨?_, fun n1 n2 h1 h2 => ⟨fun hp => expand_range_mismatch hs h1 h2 hp,
      fun hp hgt => expand_range_startGreater hs h1 h2 hp hgt,
      fun hp hle => ⟨_, expand_range_ok hs h1 h2 hp hle⟩⟩⟩
    rintro (h1 | h2)
    · exact expand_range_missingNumber_left hs h1
    · exact expand_range_missingNumber_right hs h2

/-- C3 witness: the start-greater case of `expand_range_error_cases`
evaluated at the concrete invalid spec `"x9..x5"`. -/
theorem expand_range_error_cases_wit :
    expand_range ("x9..x5".toList) = Except.error RangeError.startGreater := by
  have h := (expand_range_error_cases ("x9..x5".toList)).2 ("x9".toList) ("x5".toList)
    (by decide)
  exact (h.2 9 5 (by decide) (by decide)).2.1 (by decide) (by decide)

/-- C4: every output of a successful `expand_range` is the shared part
followed by the rendering of the number zero-padded to `max(w1, w2)` where
`w1`, `w2` are the digit-run widths of the two endpoints; `zfill` pads to at
least the requested width and never truncates (a string at least as long as
the width is returned unchanged); concretely, `expand_range("a1..a100")`
yields 99 outputs, all of length 4 (width 3 plus the one-character part),
from `"a001"` to `"a099"`. -/
theorem expand_range_pad_width :
    (∀ (w : Nat) (s : List Char), w ≤ (zfill w s).length ∧ s.length ≤ (zfill w s).length ∧
        (w ≤ s.length → zfill w s = s)) ∧
    (∀ (spec l r p : List Char) (n1 n2 : Int) (w1 w2 : Nat) (outs : List (List Char)),
      splitFirstDotDot spec = some (l, r) →
      split_prefix_num l = (p, some n1, w1) →
      split_prefix_num r = (p, some n2, w2) →
      expand_range spec = Except.ok outs →
      outs = (pyRange n1 n2).map fun i => p ++ zfill (max w1 w2) (intToDecimal i)) ∧
    (∀ out ∈ (expand_range ("a1..a100".toList)).toOption.getD [], out.length = 4) ∧
    ((expand_range ("a1..a100".toList)).toOption.getD []).length = 99 ∧
    ((expand_range ("a1..a100".toList)).toOption.getD []).head? = some ("a001".toList) ∧
    ((expand_range ("a1..a100".toList)).toOption.getD []).getLast? = some ("a099".toList) := by
  refine ⟨?_, ?_, by decide, by decide, by decide, by decide⟩
  · intro w s
    have hl := zfill_length w s
    exact ⟨by omega, by omega, fun h => zfill_of_le h⟩
  · intro spec l r p n1 n2 w1 w2 outs hs h1 h2 hok
    by_cases hle : n1 ≤ n2
    · have := expand_range_eq_of_valid hs h1 h2 hle
      rw [this] at hok
      exact (Except.ok.inj hok).symm
    · have := expand_range_startGreater hs (by rw [h1]) (by rw [h2]) (by rw [h1, h2])
        (by omega)
      rw [this] at hok
      exact absurd hok (by simp)

/-- C4 witness: the unfolding part of `expand_range_pad_width` applied at the
concrete spec `"q07..q9"`, whose endpoint widths are 2 and 1. -/
theorem expand_range_pad_width_wit :
    ["q07".toList, "q08".toList] =
      (pyRange 7 9).map fun i => ("q".toList) ++ zfill (max 2 1) (intToDecimal i) :=
  expand_range_pad_width.2.1 ("q07..q9".toList) ("q07".toList) ("q9".toList) ("q".toList)
    7 9 2 1 (["q07".toList, "q08".toList]) (by decide) (by decide) (by decide) (by decide)

/-! Helper lemmas about the trailing-digit decomposition. -/

theorem dropTrailing_append_trailing (s : List Char) :
    dropTrailingDigits s ++ trailingDigits s = s := by
  unfold dropTrailingDigits trailingDigits
  rw [← List.reverse_append, List.takeWhile_append_dropWhile, List.reverse_reverse]

theorem isDigit_of_mem_trailingDigits {s : List Char} {c : Char}
    (hc : c ∈ trailingDigits s) : c.isDigit = true := by
  unfold trailingDigits at hc
  rw [List.mem_reverse] at hc
  exact List.mem_takeWhile_imp hc

theorem not_isDigit_getLast_dropTrailingDigits {s : List Char} {c : Char}
    (hc : (dropTrailingDigits s).getLast? = some c) : c.isDigit = false := by
  unfold dropTrailingDigits at hc
  rw [List.getLast?_reverse] at hc
  have h := List.head?_dropWhile_not Char.isDigit s.reverse
  rw [hc] at h
  exact h

theorem stripFinalNewline_eq_self {s : List Char} (h : s.getLast? ≠ some '\n') :
    stripFinalNewline s = s := by
  unfold stripFinalNewline
  cases hl : s.getLast? with
  | none => rfl
  | some c =>
    have hc : ¬ c = '\n' := fun hh => h (by rw [hl, hh])
    show (if c = '\n' then s.dropLast else s) = s
    rw [if_neg hc]

theorem split_prefix_num_of_no_digits {s : List Char}
    (h : trailingDigits (stripFinalNewline s) = []) :
    split_prefix_num s = (s, none, 0) := by
  simp [split_prefix_num, h]

theorem split_prefix_num_of_digits {s : List Char}
    (h : trailingDigits (stripFinalNewline s) ≠ []) :
    split_prefix_num s =
      (dropTrailingDigits (stripFinalNewline s),
       some (Int.ofNat (natOfDigits (trailingDigits (stripFinalNewline s)))),
       (trailingDigits (stripFinalNewline s)).length) := by
  simp [split_prefix_num, h]

/-- C2 counterexample: the string `"a7\n"` has no trailing run of ASCII
digits (its last character is a newline, not a digit), yet
`split_prefix_num` does not return `(s, None, 0)` on it: the regex anchor
`$` also matches just before the final newline, so the call returns
`("a", 7, 1)` and the prefix concatenated with the digits does not
reconstruct the input. -/
theorem split_prefix_num_trailing_newline :
    ("a7\n".toList).getLast? = some '\n' ∧ Char.isDigit '\n' = false ∧
      split_prefix_num ("a7\n".toList) = ("a".toList, some 7, 1) ∧
      split_prefix_num ("a7\n".toList) ≠ (("a7\n".toList), none, 0) := by
  decide

/-- C2 (amended): `split_prefix_num` is total over all strings; the string
it actually searches is the input with a single final newline removed
(Python's `$` matches just before a trailing newline).  For that searched
body, the function splits it into a prefix and its maximal trailing run of
ASCII digits — the run's characters are all digits, the character before
the run is not a digit, and prefix concatenated with the run reconstructs
the body.  When the run is empty the result is `(s, None, 0)` (with the
original string); otherwise the result is the prefix, the integer value of
the run, and the run's length, so strings without a final newline satisfy
the claim as stated, e.g. `"part007"` gives `("part", 7, 3)`. -/
theorem split_prefix_num_spec (s : List Char) :
    dropTrailingDigits (stripFinalNewline s) ++ trailingDigits (stripFinalNewline s)
        = stripFinalNewline s ∧
    (∀ c ∈ trailingDigits (stripFinalNewline s), c.isDigit = true) ∧
    (∀ c, (dropTrailingDigits (stripFinalNewline s)).getLast? = some c →
      c.isDigit = false) ∧
    (s.getLast? ≠ some '\n' → stripFinalNewline s = s) ∧
    (trailingDigits (stripFinalNewline s) = [] → split_prefix_num s = (s, none, 0)) ∧
    (trailingDigits (stripFinalNewline s) ≠ [] →
      split_prefix_num s =
        (dropTrailingDigits (stripFinalNewline s),
         some (Int.ofNat (natOfDigits (trailingDigits (stripFinalNewline s)))),
         (trailingDigits (stripFinalNewline s)).length)) ∧
    split_prefix_num ("part007".toList) = ("part".toList, some 7, 3) := by
  refine ⟨dropTrailing_append_trailing _,
    fun c hc => isDigit_of_mem_trailingDigits hc,
    fun c hc => not_isDigit_getLast_dropTrailingDigits hc,
    fun h => stripFinalNewline_eq_self h,
    fun h => split_prefix_num_of_no_digits h,
    fun h => split_prefix_num_of_digits h,
    by decide⟩

/-- C2 witness: the conditional parts of `split_prefix_num_spec` evaluated
at the concrete input `"xy42"`. -/
theorem split_prefix_num_spec_wit :
    stripFinalNewline ("xy42".toList) = ("xy42".toList) ∧
      split_prefix_num ("xy42".toList) = ("xy".toList, some 42, 2) := by
  constructor
  · exact (split_prefix_num_spec ("xy42".toList)).2.2.2.1 (by decide)
  · have h := (split_prefix_num_spec ("xy42".toList)).2.2.2.2.2.1 (by decide)
    rw [h]
    decide

/-- C10: the number component returned by `split_prefix_num` is never a
negative integer — the regex group `(\d+)` matches only digits, so a minus
sign immediately before the trailing digits is absorbed into the prefix, as
in `"a-5"`, which parses to prefix `"a-"` and number `5`. -/
theorem split_prefix_num_nonneg :
    split_prefix_num ("a-5".toList) = ("a-".toList, some 5, 1) ∧
      ∀ (s : List Char) (n : Int), (split_prefix_num s).2.1 = some n → 0 ≤ n := by
  refine ⟨by decide, fun s n h => ?_⟩
  by_cases hd : trailingDigits (stripFinalNewline s) = []
  · simp [split_prefix_num, hd] at h
  · simp [split_prefix_num, hd] at h
    omega

/-- C10 witness: the nonnegativity statement applied at the concrete input
`"a-5"`. -/
theorem split_prefix_num_nonneg_wit :
    (split_prefix_num ("a-5".toList)).2.1 = some 5 ∧ (0 : Int) ≤ 5 :=
  ⟨by decide, split_prefix_num_nonneg.2 ("a-5".toList) 5 (by decide)⟩

/-! Helper lemmas for the filter and the batch runner. -/

theorem count_filter_eq (p : List Char → Bool) (l : List (List Char)) (a : List Char) :
    (l.filter p).count a = if p a then l.count a else 0 := by
  induction l with
  | nil => simp
  | cons x xs ih =>
    by_cases hx : p x = true
    · rw [List.filter_cons_of_pos hx, List.count_cons, ih, List.count_cons]
      by_cases hax : x = a
      · subst hax
        simp [hx]
      · have hb : (x == a) = false := by simp [hax]
        simp [hb]
    · rw [List.filter_cons_of_neg (by simp [hx]), ih, List.count_cons]
      by_cases hax : x = a
      · subst hax
        simp [hx]
      · have hb : (x == a) = false := by simp [hax]
        simp [hb]

theorem topOf_eq_self {r : List Char} (h : ∀ c ∈ r, c ≠ sepChar) : topOf r = r := by
  unfold topOf
  exact List.takeWhile_eq_self_iff.mpr (fun c hc => by simp [h c hc])

theorem processItems_result_append {J E : Type} (perItem : J → Except E Unit) :
    ∀ (pre : List J) (j : J) (post : List J) (e : E),
      (∀ x ∈ pre, perItem x = Except.ok ()) → perItem j = Except.error e →
      (processItems perItem (pre ++ j :: post)).2 = Except.error e := by
  intro pre
  induction pre with
  | nil =>
    intro j post e hpre hj
    simp [processItems, hj]
  | cons x xs ih =>
    intro j post e hpre hj
    have hx : perItem x = Except.ok () := hpre x (by simp)
    show (processItems perItem (x :: (xs ++ j :: post))).2 = Except.error e
    simp only [processItems, hx]
    exact ih j post e (fun y hy => hpre y (by simp [hy])) hj

theorem processItems_all_ok {J E : Type} (perItem : J → Except E Unit) :
    ∀ (jobs : List J), (∀ j ∈ jobs, perItem j = Except.ok ()) →
      processItems perItem jobs = (jobs, Except.ok ()) := by
  intro jobs
  induction jobs with
  | nil => intro h; rfl
  | cons x xs ih =>
    intro h
    have hx : perItem x = Except.ok () := h x (by simp)
    simp [processItems, hx, ih (fun y hy => h y (by simp [hy]))]

/-- C6: with a non-empty allowed set, the filter retains exactly the
discovered files whose top path segment is a member of the set: the result
is a sublist of the input (discovery order preserved), membership is
characterised by the top-segment test, each path's multiplicity is preserved
when its top segment is allowed and zero otherwise (no deduplication), a
path without separators — a file directly in the input root — has itself as
its top segment and faces the same test, and in `main` this filter is
exactly what a non-empty expansion of the `--subdirs` spec triggers. -/
theorem filterAllowed_top_segment (allowed : List (List Char)) (rels : List (List Char))
    (hne : allowed ≠ []) :
    (filterAllowed allowed rels).Sublist rels ∧
    (∀ r, r ∈ filterAllowed allowed rels ↔ r ∈ rels ∧ topOf r ∈ allowed) ∧
    (∀ r, (filterAllowed allowed rels).count r =
      if topOf r ∈ allowed then rels.count r else 0) ∧
    (∀ r : List Char, (∀ c ∈ r, c ≠ sepChar) → topOf r = r) ∧
    (∀ spec, expand_range (pyStrip spec) = Except.ok allowed → spec ≠ [] →
      selectJobs (some spec) rels = Except.ok (filterAllowed allowed rels)) := by
  refine ⟨List.filter_sublist rels, ?_, ?_, fun r h => topOf_eq_self h, ?_⟩
  · intro r
    simp [filterAllowed, List.mem_filter]
  · intro r
    rw [filterAllowed, count_filter_eq]
    by_cases h : topOf r ∈ allowed <;> simp [h]
  · intro spec hexp hspec
    simp [selectJobs, hspec, hexp, hne]

/-- C6 witness: the membership characterisation applied to a concrete
discovery list with allowed set `{"000"}`. -/
theorem filterAllowed_top_segment_wit :
    ("000/a.glb".toList) ∈ filterAllowed [("000".toList)]
      ["000/a.glb".toList, "001/b.obj".toList, "c.fbx".toList] :=
  ((filterAllowed_top_segment [("000".toList)]
      ["000/a.glb".toList, "001/b.obj".toList, "c.fbx".toList]
      (by decide)).2.1 ("000/a.glb".toList)).mpr ⟨by decide, by decide⟩

/-- C7: the top-segment filter is idempotent — filtering an already-filtered
job list against the same non-empty allowed set returns the identical
sequence, element for element. -/
theorem filterAllowed_idempotent (allowed : List (List Char)) (rels : List (List Char))
    (hne : allowed ≠ []) :
    filterAllowed allowed (filterAllowed allowed rels) = filterAllowed allowed rels := by
  simp [filterAllowed, List.filter_filter]

/-- C7 witness: idempotence at a concrete job list and allowed set. -/
theorem filterAllowed_idempotent_wit :
    filterAllowed [("000".toList)] (filterAllowed [("000".toList)] ["000/a.glb".toList]) =
      filterAllowed [("000".toList)] ["000/a.glb".toList] :=
  filterAllowed_idempotent [("000".toList)] ["000/a.glb".toList] (by decide)

/-- C9: when the supplied spec is valid but expands to the empty sequence,
the truthiness guard `if allowed:` skips the filtering step entirely, so
every discovered file is processed — the empty allowed set selects all
subdirectories rather than none. -/
theorem selectJobs_empty_expansion (spec : List Char) (rels : List (List Char))
    (hspec : spec ≠ []) (h : expand_range (pyStrip spec) = Except.ok []) :
    selectJobs (some spec) rels = Except.ok rels := by
  simp [selectJobs, hspec, h]

/-- C9 witness: the equal-endpoint spec `"000-003..000-003"` expands to the
empty sequence, and the whole concrete discovery list survives. -/
theorem selectJobs_empty_expansion_wit :
    selectJobs (some ("000-003..000-003".toList)) ["x/a.glb".toList, "y/b.obj".toList] =
      Except.ok ["x/a.glb".toList, "y/b.obj".toList] :=
  selectJobs_empty_expansion ("000-003..000-003".toList)
    ["x/a.glb".toList, "y/b.obj".toList] (by decide) (by decide)

/-- C5: after the batch runner finishes — on normal completion of the loop
or when an item's processing fails — the process-wide output primitive is
the one active before the runner was invoked, and the first per-item error
propagates to the caller unmodified (the `finally` restoration having
happened on the way out). -/
theorem runBatch_restores_output {P J E : Type} (tw : P) (perItem : J → Except E Unit)
    (jobs : List J) (st : PrintState P) :
    ((runBatch tw perItem jobs st).1).current = st.current ∧
    (∀ (pre : List J) (j : J) (post : List J) (e : E),
      jobs = pre ++ j :: post →
      (∀ x ∈ pre, perItem x = Except.ok ()) →
      perItem j = Except.error e →
      (runBatch tw perItem jobs st).2.2 = Except.error e) := by
  constructor
  · rfl
  · intro pre j post e hjobs hpre hj
    show (processItems perItem (jobs.drop batchStart)).2 = Except.error e
    rw [show jobs.drop batchStart = jobs from rfl, hjobs]
    exact processItems_result_append perItem pre j post e hpre hj

/-- C5 witness: a three-job batch whose middle item fails with error `5`;
the printer is restored to `3` and the error surfaces unchanged. -/
theorem runBatch_restores_output_wit :
    ((runBatch 9 (fun j : Nat => if j = 1 then Except.error 5 else Except.ok ())
        [0, 1, 2] { current := 3 }).1).current = 3 ∧
    (runBatch 9 (fun j : Nat => if j = 1 then Except.error 5 else Except.ok ())
        [0, 1, 2] { current := 3 }).2.2 = Except.error 5 :=
  ⟨(runBatch_restores_output 9
      (fun j : Nat => if j = 1 then Except.error 5 else Except.ok ())
      [0, 1, 2] { current := 3 }).1,
   (runBatch_restores_output 9
      (fun j : Nat => if j = 1 then Except.error 5 else Except.ok ())
      [0, 1, 2] { current := 3 }).2 [0] 1 [2] 5 (by decide) (by decide) (by decide)⟩

/-- C8: when no item fails, the runner's event trace is exactly one
total-count report followed by one item event per job, in the job list's
order — the report appears exactly once, before any processing — and the
loop completes normally. -/
theorem runBatch_sequential_trace {P J E : Type} (tw : P) (perItem : J → Except E Unit)
    (jobs : List J) (st : PrintState P)
    (h : ∀ j ∈ jobs, perItem j = Except.ok ()) :
    (runBatch tw perItem jobs st).2.1 =
      RunEvent.reportTotal jobs.length :: jobs.map RunEvent.item ∧
    ((runBatch tw perItem jobs st).2.1.countP
      (fun ev => match ev with | RunEvent.reportTotal _ => true | RunEvent.item _ => false))
        = 1 ∧
    (runBatch tw perItem jobs st).2.2 = Except.ok () := by
  have hp := processItems_all_ok perItem jobs h
  have h1 : (runBatch tw perItem jobs st).2.1 =
      RunEvent.reportTotal jobs.length :: jobs.map RunEvent.item := by
    show RunEvent.reportTotal jobs.length ::
      (processItems perItem (jobs.drop batchStart)).1.map RunEvent.item = _
    rw [show jobs.drop batchStart = jobs from rfl, hp]
  refine ⟨h1, ?_, ?_⟩
  · rw [h1]
    rw [List.countP_cons]
    simp [List.countP_map, Function.comp]
  · show (processItems perItem (jobs.drop batchStart)).2 = Except.ok ()
    rw [show jobs.drop batchStart = jobs from rfl, hp]

/-- C8 witness: the trace of a concrete two-job batch with an always-ok
item function. -/
theorem runBatch_sequential_trace_wit :
    (runBatch 9 (fun _ : Nat => (Except.ok () : Except Nat Unit)) [4, 5]
        { current := 3 }).2.1 =
      RunEvent.reportTotal ([4, 5] : List Nat).length :: ([4, 5].map RunEvent.item) ∧
    ((runBatch 9 (fun _ : Nat => (Except.ok () : Except Nat Unit)) [4, 5]
        { current := 3 }).2.1.countP
      (fun ev => match ev with | RunEvent.reportTotal _ => true | RunEvent.item _ => false))
        = 1 ∧
    (runBatch 9 (fun _ : Nat => (Except.ok () : Except Nat Unit)) [4, 5]
        { current := 3 }).2.2 = Except.ok () :=
  runBatch_sequential_trace 9 (fun _ : Nat => (Except.ok () : Except Nat Unit)) [4, 5]
    { current := 3 } (by decide)

end NBV
